import Mathlib

/-
  Verification of the telestai wallet groomer consolidation loop
  (src/telestai-groomer.py).

  Monetary amounts are Python `Decimal` values in the source; they are
  embedded as rationals (ℚ), which is faithful because the script only
  adds, subtracts, takes `min` of, and compares amounts (never divides),
  so every value stays an exact decimal and ℚ-arithmetic coincides with
  `Decimal`-arithmetic on them.

  Python `dict`s (insertion-ordered) are embedded as association lists in
  insertion order; assignment to an existing key keeps its position,
  assignment to a missing key appends at the end.
-/

namespace Groomer

/-- One unspent output as returned by `listunspent` (txid, vout,
scriptPubKey, amount, confirmations). -/
structure Coin where
  txid : String
  vout : ℕ
  scriptPubKey : String
  amount : ℚ
  confirmations : ℕ
deriving DecidableEq

/-- The value tuple stored in the `scripts` dict of the grouping loop
(lines 86-94): `(qualifying count, total amount, third field)`.  The
source intends the third field to be the total output count for the
script, but both branches of the update actually write
`scripts[script][0] + 1`. -/
abbrev GTuple : Type := ℕ × ℚ × ℕ

/-- Lookup in an insertion-ordered dict modelled as an association list. -/
def alookup {α : Type} (d : List (String × α)) (k : String) : Option α :=
  match d with
  | [] => none
  | (k', v) :: rest => if k' = k then some v else alookup rest k

/-- Assignment `d[k] = v` on an insertion-ordered dict: an existing key
keeps its position, a new key is appended at the end. -/
def dictSet {α : Type} (d : List (String × α)) (k : String) (v : α) : List (String × α) :=
  match d with
  | [] => [(k, v)]
  | (k', v') :: rest => if k' = k then (k, v) :: rest else (k', v') :: dictSet rest k v

/-- One pass of the grouping loop body (lines 87-94).  A coin qualifies
when `amount < max_amt_input` and `amount >= Decimal('0.01')` and
`confirmations > 100`.  Note the faithful embedding of the source's
third tuple component: `scripts[script][0] + 1` in BOTH branches. -/
def groupStep (maxAmtInput : ℚ) (scripts : List (String × GTuple)) (coin : Coin) :
    List (String × GTuple) :=
  let cur := (alookup scripts coin.scriptPubKey).getD (0, 0, 0)
  if coin.amount < maxAmtInput ∧ (1/100 : ℚ) ≤ coin.amount ∧ 100 < coin.confirmations then
    dictSet scripts coin.scriptPubKey (cur.1 + 1, cur.2.1 + coin.amount, cur.1 + 1)
  else
    dictSet scripts coin.scriptPubKey (cur.1, cur.2.1 + coin.amount, cur.1 + 1)

/-- The whole grouping loop (lines 86-94): fold `groupStep` over the
snapshot, starting from the empty dict. -/
def buildScripts (maxAmtInput : ℚ) (coins : List Coin) : List (String × GTuple) :=
  coins.foldl (groupStep maxAmtInput) []

/-- Python's comparison of the value tuples `(int, Decimal, int)`:
lexicographic. This is the order used by
`max(scripts.items(), key=operator.itemgetter(1))` on line 105. -/
def tupLt (a b : GTuple) : Prop :=
  a.1 < b.1 ∨ (a.1 = b.1 ∧ (a.2.1 < b.2.1 ∨ (a.2.1 = b.2.1 ∧ a.2.2 < b.2.2)))

instance (a b : GTuple) : Decidable (tupLt a b) := by
  unfold tupLt; infer_instance

/-- Python `max(iterable, key=...)`: scan left to right, replacing the
current best only when the new item's key compares strictly greater, so
the FIRST item attaining the maximum wins. -/
def pyMaxGo (best : String × GTuple) (l : List (String × GTuple)) : String × GTuple :=
  l.foldl (fun b y => if tupLt b.2 y.2 then y else b) best

/-- Line 105: `most_overused = max(scripts.items(), key=operator.itemgetter(1))[0]`,
on a dict already known to be non-empty (guard at line 96). -/
def mostOverused (s0 : String × GTuple) (rest : List (String × GTuple)) : String :=
  (pyMaxGo s0 rest).1

/-- Modelled from the spec's words (candidate selection): select the
script whose group has the greatest QUALIFYING COUNT, ties broken by
first-seen order, regardless of the other aggregates.  Stated for
comparison against `mostOverused`, which is the code's selector. -/
def specMostOverused (s0 : String × GTuple) (rest : List (String × GTuple)) : String :=
  (rest.foldl (fun b y => if b.2.1 < y.2.1 then y else b) s0).1

/-- Sum of the `total amount` fields over all groups in the dict. -/
def groupAmtSum (scripts : List (String × GTuple)) : ℚ :=
  (scripts.map (fun p => p.2.2.1)).sum

/-- Sum of the amounts of a list of coins. -/
def coinAmtSum (coins : List Coin) : ℚ :=
  (coins.map (fun c => c.amount)).sum

/-- The lexicographic key that `tupLt` compares. -/
def ordKey (t : GTuple) : ℕ ×ₗ (ℚ ×ₗ ℕ) := toLex (t.1, toLex (t.2.1, t.2.2))

/- ------------------------------------------------------------------
   Working set and input selection (lines 116-133)
   ------------------------------------------------------------------ -/

/-- Lines 116-121: the working set `usescripts`: the most-overused
script plus every script whose total amount is below
`Decimal('0.00010000')`.  The Python `set` is modelled as a list, used
only through membership. -/
def usescriptsOf (scripts : List (String × GTuple)) (mo : String) : List String :=
  mo :: (scripts.filter (fun p => p.2.2.1 < (1/10000 : ℚ))).map Prod.fst

/-- A transaction input reference, the `txout = {'txid':..,'vout':..}`
record built on lines 130-132. -/
structure TxOutRef where
  txid : String
  vout : ℕ
deriving DecidableEq

/-- The input-selection loop (lines 123-133): walk the snapshot in RPC
order, stop once `max_num_tx` inputs are collected, pick every coin
whose script is in the working set, accumulating references and the
total amount `amt`. -/
def inputSelGo (usescripts : List String) (maxNumTx : ℕ) :
    List Coin → List TxOutRef → ℚ → List TxOutRef × ℚ
  | [], txouts, amt => (txouts, amt)
  | coin :: rest, txouts, amt =>
    if maxNumTx ≤ txouts.length then (txouts, amt)
    else if coin.scriptPubKey ∈ usescripts then
      inputSelGo usescripts maxNumTx rest (txouts ++ [⟨coin.txid, coin.vout⟩]) (amt + coin.amount)
    else
      inputSelGo usescripts maxNumTx rest txouts amt

/- ------------------------------------------------------------------
   Output splitting (lines 138-155)
   ------------------------------------------------------------------ -/

/-- A destination address: either the n-th fresh address handed out by
the wallet's `getnewaddress`, or the explicitly configured one. -/
inductive Addr
  | fresh (n : ℕ)
  | given (s : String)
deriving DecidableEq

/-- State of the Python variable `addr`, which is never initialised
before the split loop: it is either still unbound (referencing it
raises `NameError`) or bound to an address. -/
inductive AddrVar
  | unbound
  | bound (a : Addr)
deriving DecidableEq

/-- The configuration the split loop reads: `args.max_amt_per_output`,
`args.address` and `args.reuse`. -/
structure SplitCfg where
  maxAmtPerOutput : ℚ
  address : Option String
  reuse : Bool
deriving DecidableEq

/-- Model of `b.getnewaddress('consolidate')`: the wallet hands out the
next fresh address. -/
def getnewaddress (ctr : ℕ) : Addr := Addr.fresh ctr

/-- Lines 146-150: determine the destination address for one chunk.
If `args.address` is set, use it.  Otherwise evaluate
`not args.reuse or addr is None`: with reuse off a fresh address is
always fetched; with reuse on the existing `addr` is reused — but if
`addr` was never assigned, evaluating it raises `NameError`, modelled
as `Except.error`. -/
def resolveAddr (cfg : SplitCfg) (ctr : ℕ) (addr : AddrVar) :
    Except Unit (Addr × ℕ × AddrVar) :=
  match cfg.address with
  | some s => Except.ok (Addr.given s, ctr, AddrVar.bound (Addr.given s))
  | none =>
    if cfg.reuse then
      match addr with
      | AddrVar.unbound => Except.error ()
      | AddrVar.bound a => Except.ok (a, ctr, AddrVar.bound a)
    else
      Except.ok (getnewaddress ctr, ctr + 1, AddrVar.bound (getnewaddress ctr))

/-- Lines 151-154: `if addr not in out: out[addr] = 0; out[addr] += amount`
on the insertion-ordered payout dict. -/
def insertAdd (out : List (Addr × ℚ)) (k : Addr) (v : ℚ) : List (Addr × ℚ) :=
  match out with
  | [] => [(k, v)]
  | (k', v') :: rest => if k' = k then (k', v' + v) :: rest else (k', v') :: insertAdd rest k v

/-- Result of the split loop: the payout dict `out`, the ordered list
of chunk amounts that were added to it, the fresh-address counter and
the final state of `addr`. -/
structure SplitResult where
  out : List (Addr × ℚ)
  chunks : List ℚ
  ctr : ℕ
  addr : AddrVar
deriving DecidableEq

/-- Lines 143-145: `amount = min(max_amt_per_output, na)`, then if
`na - amount < Decimal('10')` absorb the remainder: `amount = na`. -/
def chunkAmount (maxAmtPerOutput na : ℚ) : ℚ :=
  if na - min maxAmtPerOutput na < 10 then na else min maxAmtPerOutput na

/-- The output-splitting `while` loop (lines 142-155), fuel-indexed.
Each pass: compute the chunk `amount` (lines 143-145); resolve the
destination address (lines 146-150, possibly raising); if `amount > 0`
add it to the payout dict (lines 151-154); `na -= amount` (line 155).
Exhausted fuel returns the state reached so far; every theorem below
supplies enough fuel for the loop to have finished. -/
def splitLoopGo (cfg : SplitCfg) :
    ℕ → ℚ → ℕ → AddrVar → List (Addr × ℚ) → List ℚ → Except Unit SplitResult
  | 0, _na, ctr, addr, out, chunks => Except.ok ⟨out, chunks, ctr, addr⟩
  | fuel + 1, na, ctr, addr, out, chunks =>
    if 0 < na then
      match resolveAddr cfg ctr addr with
      | Except.error e => Except.error e
      | Except.ok (a, ctr', addr') =>
        if 0 < chunkAmount cfg.maxAmtPerOutput na then
          splitLoopGo cfg fuel (na - chunkAmount cfg.maxAmtPerOutput na) ctr' addr'
            (insertAdd out a (chunkAmount cfg.maxAmtPerOutput na))
            (chunks ++ [chunkAmount cfg.maxAmtPerOutput na])
        else
          splitLoopGo cfg fuel (na - chunkAmount cfg.maxAmtPerOutput na) ctr' addr' out chunks
    else
      Except.ok ⟨out, chunks, ctr, addr⟩

/-- The chunk list of a split-loop result (empty if the loop raised). -/
def chunksOf (r : Except Unit SplitResult) : List ℚ :=
  match r with
  | Except.ok r => r.chunks
  | Except.error _ => []

/-- Sum of the payout dict's values. -/
def outSum (out : List (Addr × ℚ)) : ℚ :=
  (out.map Prod.snd).sum

/-- The address-mode precondition under which the split loop cannot
raise: an explicit address is configured, or reuse mode is off, or
`addr` is already bound (as it is on every outer iteration after the
first assignment). -/
def AddrOk (cfg : SplitCfg) (addr : AddrVar) : Prop :=
  cfg.address.isSome ∨ cfg.reuse = false ∨ addr ≠ AddrVar.unbound

/- ------------------------------------------------------------------
   Head of one outer-loop iteration (lines 79-121)
   ------------------------------------------------------------------ -/

/-- How one pass of the outer `while True` loop can leave the
grouping/termination section: the `listunspent` query raised (the
script prints the error and exits without printing the transaction
list), the wallet is clean (the accumulated txids are printed only when
non-empty), or consolidation proceeds with the selected script and
working set. -/
inductive IterHead
  | queryError
  | walletClean (reported : Option (List String))
  | proceed (mo : String) (use : List String)
deriving DecidableEq

/-- The txids reported to the user on this exit, if any. -/
def reportedTxids (h : IterHead) : Option (List String) :=
  match h with
  | IterHead.walletClean r => r
  | _ => none

/-- Lines 79-121: fetch the snapshot (`none` models `listunspent`
raising), build the groups, exit if there are none, select the
most-overused script, exit if its tuple's third field is below 3 or its
total amount below `Decimal('0.01')`, else proceed with the working
set. -/
def loopIterationHead (maxAmtInput : ℚ) (query : Option (List Coin))
    (transactions : List String) : IterHead :=
  match query with
  | none => IterHead.queryError
  | some coins =>
    match buildScripts maxAmtInput coins with
    | [] => IterHead.walletClean (if transactions = [] then none else some transactions)
    | s0 :: rest =>
      let mo := mostOverused s0 rest
      let g := (alookup (s0 :: rest) mo).getD (0, 0, 0)
      if g.2.2 < 3 ∨ g.2.1 < (1/100 : ℚ) then
        IterHead.walletClean (if transactions = [] then none else some transactions)
      else
        IterHead.proceed mo (usescriptsOf (s0 :: rest) mo)

/- ------------------------------------------------------------------
   Measurement helpers and concrete inputs
   ------------------------------------------------------------------ -/

/-- Number of snapshot outputs whose destination script is `s` (the
quantity the data model calls the script's total output count). -/
def scriptCount (s : String) : List Coin → ℕ
  | [] => 0
  | c :: rest => (if c.scriptPubKey = s then 1 else 0) + scriptCount s rest

/-- Total amount over all snapshot outputs whose destination script is
`s`. -/
def scriptAmtSum (s : String) : List Coin → ℚ
  | [] => 0
  | c :: rest => (if c.scriptPubKey = s then c.amount else 0) + scriptAmtSum s rest

/-- Configuration `-o 10 -a dest` (explicit destination, reuse off). -/
def cfgGiven10 : SplitCfg := ⟨10, some "dest", false⟩

/-- Configuration `-o 10` with neither `-a` nor `--reuse`. -/
def cfgFresh10 : SplitCfg := ⟨10, none, false⟩

/-- Configuration `-o 10 --reuse` without `-a`. -/
def cfgReuse10 : SplitCfg := ⟨10, none, true⟩

/-- Snapshot with three well-confirmed outputs of 30 TLS to one script:
none qualifies (30 is not below `max_amt_input = 25`). -/
def exC3 : List Coin :=
  [⟨"t1", 0, "s", 30, 200⟩, ⟨"t2", 0, "s", 30, 200⟩, ⟨"t3", 0, "s", 30, 200⟩]

/-- Snapshot where scripts s1 and s2 are tied on qualifying count (2
each) but s2 has the larger total amount; s1 is seen first. -/
def exC4 : List Coin :=
  [⟨"t1", 0, "s1", 2, 200⟩, ⟨"t2", 0, "s1", 2, 200⟩,
   ⟨"t3", 0, "s2", 7, 200⟩, ⟨"t4", 0, "s2", 7, 200⟩]

/-- Snapshot with two outputs of 5 and 7 TLS to script s. -/
def exC2 : List Coin :=
  [⟨"t1", 0, "s", 5, 200⟩, ⟨"t2", 1, "s", 7, 200⟩]

end Groomer

namespace Groomer

/- ------------------------------------------------------------------
   Grouping: conservation of total amount (claim C6)
   ------------------------------------------------------------------ -/

lemma dictSet_amtSum_none {d : List (String × GTuple)} {k : String} (v : GTuple)
    (h : alookup d k = none) :
    groupAmtSum (dictSet d k v) = groupAmtSum d + v.2.1 := by
  induction d with
  | nil => simp [dictSet, groupAmtSum]
  | cons p rest ih =>
    obtain ⟨k', w⟩ := p
    by_cases hk : k' = k
    · simp [alookup, hk] at h
    · simp only [alookup, hk, if_false] at h
      simp only [dictSet, hk, if_false, groupAmtSum, List.map_cons, List.sum_cons]
      have := ih h
      simp only [groupAmtSum] at this
      rw [this]; ring

lemma dictSet_amtSum_some {d : List (String × GTuple)} {k : String} {cur : GTuple} (v : GTuple)
    (h : alookup d k = some cur) :
    groupAmtSum (dictSet d k v) = groupAmtSum d - cur.2.1 + v.2.1 := by
  induction d with
  | nil => simp [alookup] at h
  | cons p rest ih =>
    obtain ⟨k', w⟩ := p
    by_cases hk : k' = k
    · simp only [alookup, hk, if_true] at h
      cases h
      simp only [dictSet, hk, if_true, groupAmtSum, List.map_cons, List.sum_cons]
      ring
    · simp only [alookup, hk, if_false] at h
      simp only [dictSet, hk, if_false, groupAmtSum, List.map_cons, List.sum_cons]
      have := ih h
      simp only [groupAmtSum] at this
      rw [this]; ring

lemma groupStep_amtSum (maxAmtInput : ℚ) (scripts : List (String × GTuple)) (coin : Coin) :
    groupAmtSum (groupStep maxAmtInput scripts coin) = groupAmtSum scripts + coin.amount := by
  unfold groupStep
  cases h : alookup scripts coin.scriptPubKey with
  | none =>
    split
    · rw [dictSet_amtSum_none _ h]; simp [h]
    · rw [dictSet_amtSum_none _ h]; simp [h]
  | some cur =>
    split
    · rw [dictSet_amtSum_some _ h]; simp [h]; ring
    · rw [dictSet_amtSum_some _ h]; simp [h]; ring

lemma buildScripts_foldl_amtSum (maxAmtInput : ℚ) :
    ∀ (coins : List Coin) (s : List (String × GTuple)),
      groupAmtSum (coins.foldl (groupStep maxAmtInput) s) = groupAmtSum s + coinAmtSum coins := by
  intro coins
  induction coins with
  | nil => intro s; simp [coinAmtSum]
  | cons c rest ih =>
    intro s
    simp only [List.foldl_cons]
    rw [ih (groupStep maxAmtInput s c), groupStep_amtSum]
    simp only [coinAmtSum, List.map_cons, List.sum_cons]
    ring

/-- C6: For every list of unspent outputs, after the grouping pass the
sum over all script groups of the group's total-amount field equals the
sum of the amounts of all outputs in the list. -/
theorem grouping_total_amount_conserved (maxAmtInput : ℚ) (coins : List Coin) :
    groupAmtSum (buildScripts maxAmtInput coins) = coinAmtSum coins := by
  unfold buildScripts
  rw [buildScripts_foldl_amtSum]
  simp [groupAmtSum]

/- ------------------------------------------------------------------
   Candidate selection (claim C4)
   ------------------------------------------------------------------ -/

lemma tupLt_iff (a b : GTuple) : tupLt a b ↔ ordKey a < ordKey b := by
  obtain ⟨a1, a2, a3⟩ := a
  obtain ⟨b1, b2, b3⟩ := b
  simp [tupLt, ordKey, Prod.Lex.lt_iff]

lemma tupLt_trans {a b c : GTuple} (h1 : tupLt a b) (h2 : tupLt b c) : tupLt a c :=
  (tupLt_iff a c).mpr (lt_trans ((tupLt_iff a b).mp h1) ((tupLt_iff b c).mp h2))

lemma not_tupLt_lt_trans {a b c : GTuple} (h1 : ¬ tupLt a b) (h2 : tupLt a c) : tupLt b c := by
  rw [tupLt_iff] at h1 h2 ⊢
  exact lt_of_le_of_lt (not_lt.mp h1) h2

lemma pyMaxGo_nil (best : String × GTuple) : pyMaxGo best [] = best := rfl

lemma pyMaxGo_cons (best y : String × GTuple) (l : List (String × GTuple)) :
    pyMaxGo best (y :: l) = pyMaxGo (if tupLt best.2 y.2 then y else best) l := rfl

/-- Characterisation of Python `max` with first-wins tie-breaking:
either the starting item is already maximal and returned, or the result
splits the list into a strictly-smaller prefix, the returned item, and a
suffix no element of which beats it. -/
lemma pyMaxGo_spec :
    ∀ (l : List (String × GTuple)) (best : String × GTuple),
      (pyMaxGo best l = best ∧ ∀ y ∈ l, ¬ tupLt best.2 y.2) ∨
      (∃ l1 p l2, l = l1 ++ p :: l2 ∧ pyMaxGo best l = p ∧ tupLt best.2 p.2 ∧
        (∀ y ∈ l1, tupLt y.2 p.2) ∧ (∀ y ∈ l2, ¬ tupLt p.2 y.2)) := by
  intro l
  induction l with
  | nil => intro best; left; exact ⟨rfl, by simp⟩
  | cons y rest ih =>
    intro best
    by_cases h : tupLt best.2 y.2
    · rcases ih y with ⟨heq, hall⟩ | ⟨l1, p, l2, hsplit, heq, hlt, hbef, haft⟩
      · right
        refine ⟨[], y, rest, by simp, ?_, h, by simp, hall⟩
        rw [pyMaxGo_cons, if_pos h, heq]
      · right
        refine ⟨y :: l1, p, l2, by simp [hsplit], ?_, tupLt_trans h hlt, ?_, haft⟩
        · rw [pyMaxGo_cons, if_pos h, heq]
        · intro z hz
          rcases List.mem_cons.mp hz with hz | hz
          · rw [hz]; exact hlt
          · exact hbef z hz
    · rcases ih best with ⟨heq, hall⟩ | ⟨l1, p, l2, hsplit, heq, hlt, hbef, haft⟩
      · left
        refine ⟨?_, ?_⟩
        · rw [pyMaxGo_cons, if_neg h, heq]
        · intro z hz
          rcases List.mem_cons.mp hz with hz | hz
          · rw [hz]; exact h
          · exact hall z hz
      · right
        refine ⟨y :: l1, p, l2, by simp [hsplit], ?_, hlt, ?_, haft⟩
        · rw [pyMaxGo_cons, if_neg h, heq]
        · intro z hz
          rcases List.mem_cons.mp hz with hz | hz
          · rw [hz]; exact not_tupLt_lt_trans h hlt
          · exact hbef z hz

/-- C4 (amended): the selected script is the one whose whole group
tuple `(qualifying count, total amount, third field)` is greatest in
Python's lexicographic tuple order, with ties broken first-seen: the
groups dict splits into a prefix of strictly lex-smaller groups, the
selected entry, and a suffix no entry of which is lex-greater. -/
theorem most_overused_lex_first (maxAmtInput : ℚ) (coins : List Coin)
    (s0 : String × GTuple) (rest : List (String × GTuple))
    (_h : buildScripts maxAmtInput coins = s0 :: rest) :
    ∃ g l1 l2, s0 :: rest = l1 ++ (mostOverused s0 rest, g) :: l2 ∧
      (∀ p ∈ l1, tupLt p.2 g) ∧ (∀ p ∈ l2, ¬ tupLt g p.2) := by
  clear _h
  rcases pyMaxGo_spec rest s0 with ⟨heq, hall⟩ | ⟨l1, p, l2, hsplit, heq, hlt, hbef, haft⟩
  · exact ⟨s0.2, [], rest, by simp [mostOverused, heq], by simp, hall⟩
  · refine ⟨p.2, s0 :: l1, l2, ?_, ?_, haft⟩
    · have hmo : mostOverused s0 rest = p.1 := by rw [mostOverused, heq]
      rw [hmo, hsplit]
      simp
    · intro z hz
      rcases List.mem_cons.mp hz with hz | hz
      · rw [hz]; exact hlt
      · exact hbef z hz

/- ------------------------------------------------------------------
   Split-loop lemmas
   ------------------------------------------------------------------ -/

lemma splitLoopGo_nonpos (cfg : SplitCfg) {na : ℚ} (h : ¬ 0 < na)
    (fuel ctr : ℕ) (addr : AddrVar) (out : List (Addr × ℚ)) (chunks : List ℚ) :
    splitLoopGo cfg fuel na ctr addr out chunks = Except.ok ⟨out, chunks, ctr, addr⟩ := by
  cases fuel with
  | zero => rfl
  | succ f => simp [splitLoopGo, h]

lemma resolveAddr_ok (cfg : SplitCfg) (ctr : ℕ) (addr : AddrVar) (h : AddrOk cfg addr) :
    ∃ a ctr', resolveAddr cfg ctr addr = Except.ok (a, ctr', AddrVar.bound a) := by
  unfold resolveAddr
  cases haddr : cfg.address with
  | some s => exact ⟨Addr.given s, ctr, rfl⟩
  | none =>
    cases hr : cfg.reuse with
    | false => exact ⟨getnewaddress ctr, ctr + 1, by simp⟩
    | true =>
      cases haddrv : addr with
      | bound a => exact ⟨a, ctr, by simp⟩
      | unbound =>
        exfalso
        rcases h with h | h | h
        · rw [haddr] at h; simp at h
        · rw [hr] at h; simp at h
        · exact h haddrv

lemma addrOk_bound (cfg : SplitCfg) (a : Addr) : AddrOk cfg (AddrVar.bound a) :=
  Or.inr (Or.inr (by simp))

lemma insertAdd_sum (out : List (Addr × ℚ)) (k : Addr) (v : ℚ) :
    outSum (insertAdd out k v) = outSum out + v := by
  induction out with
  | nil => simp [insertAdd, outSum]
  | cons p rest ih =>
    obtain ⟨k', v'⟩ := p
    by_cases hk : k' = k
    · simp only [insertAdd, hk, if_true, outSum, List.map_cons, List.sum_cons]
      ring
    · simp only [insertAdd, hk, if_false, outSum, List.map_cons, List.sum_cons]
      simp only [outSum] at ih
      rw [ih]; ring

lemma insertAdd_insertAdd (out : List (Addr × ℚ)) (k : Addr) (a b : ℚ) :
    insertAdd (insertAdd out k a) k b = insertAdd out k (a + b) := by
  induction out with
  | nil => simp [insertAdd, add_assoc]
  | cons p rest ih =>
    obtain ⟨k', v'⟩ := p
    by_cases hk : k' = k
    · simp [insertAdd, hk, add_assoc]
    · simp [insertAdd, hk, ih]

lemma chunkAmount_pos {maxA na : ℚ} (hmax : 0 < maxA) (hna : 0 < na) :
    0 < chunkAmount maxA na := by
  unfold chunkAmount
  split
  · exact hna
  · exact lt_min hmax hna

lemma chunkAmount_absorb {maxA na : ℚ} (h : na - min maxA na < 10) :
    chunkAmount maxA na = na := if_pos h

lemma chunkAmount_noabsorb {maxA na : ℚ} (h : ¬ na - min maxA na < 10) :
    chunkAmount maxA na = maxA ∧ 10 ≤ na - maxA := by
  have hle : maxA ≤ na := by
    by_contra hc
    push_neg at hc
    rw [min_eq_right hc.le, sub_self] at h
    exact h (by norm_num)
  refine ⟨by rw [chunkAmount, if_neg h, min_eq_left hle], ?_⟩
  rw [min_eq_left hle] at h
  linarith [not_lt.mp h]

lemma absorb_lt {maxA na : ℚ} (h : na - min maxA na < 10) : na < maxA + 10 := by
  rcases le_total maxA na with hc | hc
  · rw [min_eq_left hc] at h; linarith
  · rw [min_eq_right hc] at h; linarith

/-- Core characterisation of the split loop on the non-raising address
modes: with enough fuel it returns (fuel-independently), the chunk list
appended is `m` full chunks of `max_amt_per_output` followed by one
final chunk in `(0, max_amt_per_output + 10)`, those chunks sum to the
payable amount, there are at most `k` of them whenever
`na ≤ k * max_amt_per_output`, and the payout dict's total grows by
exactly the payable amount. -/
lemma splitLoopGo_shape (cfg : SplitCfg) (hmax : 0 < cfg.maxAmtPerOutput) :
    ∀ (k : ℕ) (na : ℚ) (ctr : ℕ) (addr : AddrVar) (out : List (Addr × ℚ)) (chunks : List ℚ),
      AddrOk cfg addr → 0 < na → na ≤ (k : ℚ) * cfg.maxAmtPerOutput →
      ∃ (m : ℕ) (final : ℚ) (out' : List (Addr × ℚ)) (ctr' : ℕ) (a' : Addr),
        (∀ fuel, k ≤ fuel →
          splitLoopGo cfg fuel na ctr addr out chunks =
            Except.ok ⟨out', chunks ++ (List.replicate m cfg.maxAmtPerOutput ++ [final]),
              ctr', AddrVar.bound a'⟩) ∧
        0 < final ∧ final < cfg.maxAmtPerOutput + 10 ∧
        (m : ℚ) * cfg.maxAmtPerOutput + final = na ∧ m + 1 ≤ k ∧
        outSum out' = outSum out + na := by
  intro k
  induction k with
  | zero =>
    intro na ctr addr out chunks _ hna hle
    exfalso
    simp only [Nat.cast_zero, zero_mul] at hle
    linarith
  | succ k ih =>
    intro na ctr addr out chunks hok hna hle
    obtain ⟨a, ctr1, hres⟩ := resolveAddr_ok cfg ctr addr hok
    have hca := chunkAmount_pos hmax hna
    by_cases habs : na - min cfg.maxAmtPerOutput na < 10
    · -- absorb: amount = na, the loop ends on the next pass
      have hval := chunkAmount_absorb habs
      refine ⟨0, na, insertAdd out a na, ctr1, a, ?_, hna, absorb_lt habs,
        by push_cast; ring, by omega, insertAdd_sum out a na⟩
      intro fuel hfuel
      obtain ⟨f, rfl⟩ : ∃ f, fuel = f + 1 := ⟨fuel - 1, by omega⟩
      simp only [splitLoopGo, if_pos hna, hres]
      rw [hval, if_pos hna, sub_self,
        splitLoopGo_nonpos cfg (by norm_num) f ctr1 (AddrVar.bound a)]
      simp
    · -- no absorb: amount = max_amt_per_output, at least 10 remains
      obtain ⟨hval, hrem⟩ := chunkAmount_noabsorb habs
      have hna' : 0 < na - cfg.maxAmtPerOutput := by linarith
      have hle' : na - cfg.maxAmtPerOutput ≤ (k : ℚ) * cfg.maxAmtPerOutput := by
        push_cast at hle ⊢
        linarith
      obtain ⟨m, final, out', ctr', a', hrun, hfin, hfinlt, hsum, hmk, hout⟩ :=
        ih (na - cfg.maxAmtPerOutput) ctr1 (AddrVar.bound a)
          (insertAdd out a cfg.maxAmtPerOutput) (chunks ++ [cfg.maxAmtPerOutput])
          (addrOk_bound cfg a) hna' hle'
      refine ⟨m + 1, final, out', ctr', a', ?_, hfin, hfinlt, ?_, by omega, ?_⟩
      · intro fuel hfuel
        obtain ⟨f, rfl⟩ : ∃ f, fuel = f + 1 := ⟨fuel - 1, by omega⟩
        simp only [splitLoopGo, if_pos hna, hres]
        rw [hval, if_pos hmax, hrun f (by omega)]
        simp [List.replicate_succ, List.append_assoc]
      · push_cast
        linarith
      · rw [hout, insertAdd_sum]
        ring

/-- With an explicit `args.address` the split loop deposits the whole
payable amount on that single address, leaving the fresh-address
counter untouched. -/
lemma splitLoopGo_addr_some (cfg : SplitCfg) (s : String) (hs : cfg.address = some s)
    (hmax : 0 < cfg.maxAmtPerOutput) :
    ∀ (k : ℕ) (na : ℚ) (ctr : ℕ) (addr : AddrVar) (out : List (Addr × ℚ)) (chunks : List ℚ),
      0 < na → na ≤ (k : ℚ) * cfg.maxAmtPerOutput →
      ∃ chunks', ∀ fuel, k ≤ fuel →
        splitLoopGo cfg fuel na ctr addr out chunks =
          Except.ok ⟨insertAdd out (Addr.given s) na, chunks', ctr,
            AddrVar.bound (Addr.given s)⟩ := by
  intro k
  induction k with
  | zero =>
    intro na _ _ _ _ hna hle
    exfalso
    simp only [Nat.cast_zero, zero_mul] at hle
    linarith
  | succ k ih =>
    intro na ctr addr out chunks hna hle
    have hres : resolveAddr cfg ctr addr =
        Except.ok (Addr.given s, ctr, AddrVar.bound (Addr.given s)) := by
      unfold resolveAddr
      rw [hs]
    have hca := chunkAmount_pos hmax hna
    by_cases habs : na - min cfg.maxAmtPerOutput na < 10
    · refine ⟨chunks ++ [na], ?_⟩
      intro fuel hfuel
      obtain ⟨f, rfl⟩ : ∃ f, fuel = f + 1 := ⟨fuel - 1, by omega⟩
      simp only [splitLoopGo, if_pos hna, hres]
      rw [chunkAmount_absorb habs, if_pos hna, sub_self,
        splitLoopGo_nonpos cfg (by norm_num) f ctr (AddrVar.bound (Addr.given s))]
    · obtain ⟨hval, hrem⟩ := chunkAmount_noabsorb habs
      have hna' : 0 < na - cfg.maxAmtPerOutput := by linarith
      have hle' : na - cfg.maxAmtPerOutput ≤ (k : ℚ) * cfg.maxAmtPerOutput := by
        push_cast at hle ⊢
        linarith
      obtain ⟨chunks', hrun⟩ := ih (na - cfg.maxAmtPerOutput) ctr
        (AddrVar.bound (Addr.given s)) (insertAdd out (Addr.given s) cfg.maxAmtPerOutput)
        (chunks ++ [cfg.maxAmtPerOutput]) hna' hle'
      refine ⟨chunks', ?_⟩
      intro fuel hfuel
      obtain ⟨f, rfl⟩ : ∃ f, fuel = f + 1 := ⟨fuel - 1, by omega⟩
      simp only [splitLoopGo, if_pos hna, hres]
      rw [hval, if_pos hmax, hrun f (by omega), insertAdd_insertAdd]
      have harr : cfg.maxAmtPerOutput + (na - cfg.maxAmtPerOutput) = na := by ring
      rw [harr]

/-- `na ≤ ceil(na / max) * max` for positive `max`. -/
lemma le_ceil_mul {na maxA : ℚ} (hmax : 0 < maxA) :
    na ≤ (⌈na / maxA⌉₊ : ℚ) * maxA := by
  have hdiv := Nat.le_ceil (na / maxA)
  rw [div_le_iff₀ hmax] at hdiv
  exact hdiv

/- ------------------------------------------------------------------
   Claim theorems
   ------------------------------------------------------------------ -/

/-- C1: for every positive payable amount `N` and positive
`max_amt_per_output`, on every address mode that does not raise, the
splitting loop terminates — the result is the same for every fuel of at
least `ceil(N / max_amt_per_output) + 1` passes — the chunks it adds to
the payout dict sum exactly to `N`, every chunk but the last is at most
`max_amt_per_output`, every chunk including the last is below
`max_amt_per_output + 10` (the absorbed remainder is smaller than 10),
and the loop runs at most `ceil(N / max_amt_per_output) + 1`
iterations. -/
theorem split_loop_correct (cfg : SplitCfg) (na : ℚ) (ctr : ℕ) (addr : AddrVar)
    (hmax : 0 < cfg.maxAmtPerOutput) (hna : 0 < na) (hok : AddrOk cfg addr) :
    ∃ r : SplitResult,
      (∀ fuel, ⌈na / cfg.maxAmtPerOutput⌉₊ + 1 ≤ fuel →
        splitLoopGo cfg fuel na ctr addr [] [] = Except.ok r) ∧
      r.chunks.sum = na ∧
      (∀ c ∈ r.chunks.dropLast, c ≤ cfg.maxAmtPerOutput) ∧
      (∀ c ∈ r.chunks, c < cfg.maxAmtPerOutput + 10) ∧
      r.chunks.length ≤ ⌈na / cfg.maxAmtPerOutput⌉₊ + 1 := by
  obtain ⟨m, final, out', ctr', a', hrun, hfin, hfinlt, hsum, hmk, _⟩ :=
    splitLoopGo_shape cfg hmax ⌈na / cfg.maxAmtPerOutput⌉₊ na ctr addr [] [] hok hna
      (le_ceil_mul hmax)
  refine ⟨⟨out', List.replicate m cfg.maxAmtPerOutput ++ [final], ctr', AddrVar.bound a'⟩,
    ?_, ?_, ?_, ?_, ?_⟩
  · intro fuel hfuel
    have h := hrun fuel (by omega)
    simpa using h
  · simp only [List.sum_append, List.sum_replicate, List.sum_cons, List.sum_nil,
      nsmul_eq_mul]
    linarith
  · intro c hc
    rw [List.dropLast_concat] at hc
    rw [List.eq_of_mem_replicate hc]
  · intro c hc
    rcases List.mem_append.mp hc with hc | hc
    · rw [List.eq_of_mem_replicate hc]
      linarith
    · rw [List.mem_singleton.mp hc]
      exact hfinlt
  · simp only [List.length_append, List.length_replicate, List.length_singleton]
    omega

/-- Witness for C1 at `N = 25`, `max_amt_per_output = 10`, explicit
destination address configured. -/
theorem split_loop_correct_witness :
    0 < cfgGiven10.maxAmtPerOutput ∧ 0 < (25 : ℚ) ∧ AddrOk cfgGiven10 AddrVar.unbound ∧
    (∃ r : SplitResult,
      (∀ fuel, ⌈(25 : ℚ) / cfgGiven10.maxAmtPerOutput⌉₊ + 1 ≤ fuel →
        splitLoopGo cfgGiven10 fuel 25 0 AddrVar.unbound [] [] = Except.ok r) ∧
      r.chunks.sum = 25 ∧
      (∀ c ∈ r.chunks.dropLast, c ≤ cfgGiven10.maxAmtPerOutput) ∧
      (∀ c ∈ r.chunks, c < cfgGiven10.maxAmtPerOutput + 10) ∧
      r.chunks.length ≤ ⌈(25 : ℚ) / cfgGiven10.maxAmtPerOutput⌉₊ + 1) :=
  ⟨by norm_num [cfgGiven10], by norm_num, Or.inl (by simp [cfgGiven10]),
    split_loop_correct cfgGiven10 25 0 AddrVar.unbound (by norm_num [cfgGiven10])
      (by norm_num) (Or.inl (by simp [cfgGiven10]))⟩

/-- C2: whenever the total selected input amount `amt` computed by the
input-selection loop exceeds the fixed fee, the payout amounts produced
by the split loop on the payable amount `amt - fee` sum, together with
the fee, to exactly `amt` (exact decimal arithmetic). -/
theorem plan_conserves_value (cfg : SplitCfg) (fee : ℚ) (coins : List Coin)
    (usescripts : List String) (maxNumTx ctr : ℕ) (addr : AddrVar)
    (hmax : 0 < cfg.maxAmtPerOutput) (hok : AddrOk cfg addr)
    (hfee : fee < (inputSelGo usescripts maxNumTx coins [] 0).2) :
    ∃ r : SplitResult,
      (∀ fuel,
        ⌈((inputSelGo usescripts maxNumTx coins [] 0).2 - fee) / cfg.maxAmtPerOutput⌉₊ ≤ fuel →
        splitLoopGo cfg fuel ((inputSelGo usescripts maxNumTx coins [] 0).2 - fee)
          ctr addr [] [] = Except.ok r) ∧
      outSum r.out + fee = (inputSelGo usescripts maxNumTx coins [] 0).2 := by
  have hna : 0 < (inputSelGo usescripts maxNumTx coins [] 0).2 - fee := by linarith
  obtain ⟨m, final, out', ctr', a', hrun, _, _, _, _, hout⟩ :=
    splitLoopGo_shape cfg hmax
      ⌈((inputSelGo usescripts maxNumTx coins [] 0).2 - fee) / cfg.maxAmtPerOutput⌉₊
      ((inputSelGo usescripts maxNumTx coins [] 0).2 - fee) ctr addr [] [] hok hna
      (le_ceil_mul hmax)
  refine ⟨⟨out', List.replicate m cfg.maxAmtPerOutput ++ [final], ctr', AddrVar.bound a'⟩,
    ?_, ?_⟩
  · intro fuel hfuel
    have h := hrun fuel hfuel
    simpa using h
  · simp only [outSum, List.map_nil, List.sum_nil] at hout
    simp only [outSum] at hout ⊢
    linarith

/-- Witness for C2 on a concrete snapshot: two selected inputs of 5 and
7 TLS, fee 1. -/
theorem plan_conserves_value_witness :
    0 < cfgGiven10.maxAmtPerOutput ∧ AddrOk cfgGiven10 AddrVar.unbound ∧
    (1 : ℚ) < (inputSelGo ["s"] 500 exC2 [] 0).2 ∧
    (∃ r : SplitResult,
      (∀ fuel,
        ⌈((inputSelGo ["s"] 500 exC2 [] 0).2 - 1) / cfgGiven10.maxAmtPerOutput⌉₊ ≤ fuel →
        splitLoopGo cfgGiven10 fuel ((inputSelGo ["s"] 500 exC2 [] 0).2 - 1)
          0 AddrVar.unbound [] [] = Except.ok r) ∧
      outSum r.out + 1 = (inputSelGo ["s"] 500 exC2 [] 0).2) :=
  ⟨by norm_num [cfgGiven10], Or.inl (by simp [cfgGiven10]),
    by norm_num [inputSelGo, exC2],
    plan_conserves_value cfgGiven10 1 exC2 ["s"] 500 0 AddrVar.unbound
      (by norm_num [cfgGiven10]) (Or.inl (by simp [cfgGiven10]))
      (by norm_num [inputSelGo, exC2])⟩

/-- C8: with an explicit destination address configured and a positive
payable amount `amt - fee`, the payout dict produced by the split loop
has exactly one key — the configured address — holding the full payable
amount. -/
theorem explicit_address_single_key (cfg : SplitCfg) (s : String) (amt fee : ℚ)
    (ctr : ℕ) (addr : AddrVar) (hs : cfg.address = some s)
    (hmax : 0 < cfg.maxAmtPerOutput) (hpos : 0 < amt - fee) :
    ∃ chunks', ∀ fuel, ⌈(amt - fee) / cfg.maxAmtPerOutput⌉₊ ≤ fuel →
      splitLoopGo cfg fuel (amt - fee) ctr addr [] [] =
        Except.ok ⟨[(Addr.given s, amt - fee)], chunks', ctr,
          AddrVar.bound (Addr.given s)⟩ := by
  obtain ⟨chunks', hrun⟩ := splitLoopGo_addr_some cfg s hs hmax
    ⌈(amt - fee) / cfg.maxAmtPerOutput⌉₊ (amt - fee) ctr addr [] [] hpos (le_ceil_mul hmax)
  refine ⟨chunks', fun fuel hf => ?_⟩
  have h := hrun fuel hf
  simpa [insertAdd] using h

/-- Witness for C8: input total 12, fee 2, destination "dest". -/
theorem explicit_address_single_key_witness :
    cfgGiven10.address = some "dest" ∧ 0 < cfgGiven10.maxAmtPerOutput ∧
    (0 : ℚ) < 12 - 2 ∧
    (∃ chunks', ∀ fuel, ⌈((12 : ℚ) - 2) / cfgGiven10.maxAmtPerOutput⌉₊ ≤ fuel →
      splitLoopGo cfgGiven10 fuel (12 - 2) 0 AddrVar.unbound [] [] =
        Except.ok ⟨[(Addr.given "dest", 12 - 2)], chunks', 0,
          AddrVar.bound (Addr.given "dest")⟩) :=
  ⟨rfl, by norm_num [cfgGiven10], by norm_num,
    explicit_address_single_key cfgGiven10 "dest" 12 2 0 AddrVar.unbound rfl
      (by norm_num [cfgGiven10]) (by norm_num)⟩

/-- C10: with reuse enabled and no explicit destination address, the
first pass of the split loop evaluates the never-assigned `addr`
variable and raises (`NameError`), so the loop is not total on this
input shape: it produces an error, not a payout mapping. -/
theorem reuse_unbound_raises (cfg : SplitCfg) (na : ℚ) (fuel ctr : ℕ)
    (out : List (Addr × ℚ)) (chunks : List ℚ)
    (haddr : cfg.address = none) (hreuse : cfg.reuse = true) (hna : 0 < na) :
    splitLoopGo cfg (fuel + 1) na ctr AddrVar.unbound out chunks = Except.error () := by
  have hres : resolveAddr cfg ctr AddrVar.unbound = Except.error () := by
    unfold resolveAddr
    rw [haddr, hreuse]
    simp
  simp [splitLoopGo, hna, hres]

/-- Witness for C10 at payable amount 25. -/
theorem reuse_unbound_raises_witness :
    cfgReuse10.address = none ∧ cfgReuse10.reuse = true ∧ (0 : ℚ) < 25 ∧
    splitLoopGo cfgReuse10 3 25 0 AddrVar.unbound [] [] = Except.error () :=
  ⟨rfl, rfl, by norm_num,
    reuse_unbound_raises cfgReuse10 25 2 0 [] [] rfl rfl (by norm_num)⟩

/-- C7 is wrong about the code (code bug): in reuse mode without an
explicit address, the first loop iteration does not request one fresh
address and use it for all chunks — it raises on the very first chunk,
because `addr` was never initialised, and no payout plan is built. -/
theorem reuse_first_iteration_fails :
    splitLoopGo cfgReuse10 5 25 0 AddrVar.unbound [] [] = Except.error () := by
  norm_num [splitLoopGo, resolveAddr, cfgReuse10]

/-- C5: with payable amount 25 and `max_amt_per_output = 10`, the split
loop produces exactly the chunk sequence [10, 15] (the 5-remainder is
absorbed into the second chunk), both with an explicit destination
address and in fresh-address mode. -/
theorem split_25_by_10_chunks :
    chunksOf (splitLoopGo cfgGiven10 3 25 0 AddrVar.unbound [] []) = [10, 15] ∧
    chunksOf (splitLoopGo cfgFresh10 3 25 0 AddrVar.unbound [] []) = [10, 15] := by
  constructor <;>
    norm_num [splitLoopGo, resolveAddr, chunkAmount, insertAdd, chunksOf,
      cfgGiven10, cfgFresh10, getnewaddress, min_def]

/-- C3 is wrong about the code (code bug): on a snapshot where script
"s" has 3 outputs (none qualifying) totalling 90 TLS, the grouping loop
leaves `scripts["s"] = (0, 90, 1)` — both update branches write
`scripts[script][0] + 1` into the third field instead of
`scripts[script][2] + 1` — so the stop check sees 1 < 3 and exits
"wallet already clean", although the script's actual output count is 3
and its total amount 90 is not below 0.01. -/
theorem stop_check_reads_wrong_count :
    loopIterationHead 25 (some exC3) [] = IterHead.walletClean none ∧
    buildScripts 25 exC3 = [("s", (0, 90, 1))] ∧
    scriptCount "s" exC3 = 3 ∧ scriptAmtSum "s" exC3 = 90 ∧
    ¬ (scriptCount "s" exC3 < 3 ∨ scriptAmtSum "s" exC3 < (1/100 : ℚ)) := by
  refine ⟨?_, ?_, ?_, ?_, ?_⟩ <;>
    norm_num [loopIterationHead, buildScripts, groupStep, alookup, dictSet,
      mostOverused, pyMaxGo, exC3, scriptCount, scriptAmtSum, usescriptsOf]

/-- C9 (amended): a failure listing unspent outputs aborts the run
immediately (fatal, no retry), and the transaction ids of prior
broadcasts are NOT reported on this exit path — they are reported only
on the clean-termination paths. -/
theorem query_error_aborts_without_report (maxAmtInput : ℚ) (transactions : List String) :
    loopIterationHead maxAmtInput none transactions = IterHead.queryError ∧
    reportedTxids (loopIterationHead maxAmtInput none transactions) = none :=
  ⟨rfl, rfl⟩

/-- C9 as stated is false: with a prior broadcast "txid1" recorded, the
query-failure exit does not report it before exiting. -/
theorem query_error_does_not_report :
    loopIterationHead 25 none ["txid1"] = IterHead.queryError ∧
    reportedTxids (loopIterationHead 25 none ["txid1"]) ≠ some ["txid1"] :=
  ⟨rfl, by simp [loopIterationHead, reportedTxids]⟩

/-- C4 as stated is false: scripts s1 and s2 are tied on qualifying
count (2 each) and s1 is first-seen, yet the code selects s2, because
`max(..., key=itemgetter(1))` compares the whole
`(count, amount, third)` value tuples lexicographically rather than the
qualifying count alone. -/
theorem most_overused_ignores_first_seen_tie :
    buildScripts 25 exC4 = [("s1", (2, 4, 2)), ("s2", (2, 14, 2))] ∧
    mostOverused ("s1", (2, 4, 2)) [("s2", (2, 14, 2))] = "s2" ∧
    specMostOverused ("s1", (2, 4, 2)) [("s2", (2, 14, 2))] = "s1" ∧
    ("s2" : String) ≠ "s1" := by
  have hs : ("s1" : String) ≠ "s2" := by decide
  have hs' : ("s2" : String) ≠ "s1" := by decide
  refine ⟨?_, ?_, ?_, by decide⟩ <;>
    norm_num [buildScripts, groupStep, alookup, dictSet, exC4, mostOverused,
      pyMaxGo, specMostOverused, tupLt, hs, hs']

/-- Witness for the amended C4 on the concrete tied snapshot. -/
theorem most_overused_lex_first_witness :
    buildScripts 25 exC4 = ("s1", ((2 : ℕ), (4 : ℚ), (2 : ℕ))) :: [("s2", (2, 14, 2))] ∧
    (∃ g l1 l2,
      ("s1", ((2 : ℕ), (4 : ℚ), (2 : ℕ))) :: [("s2", (2, 14, 2))] =
        l1 ++ (mostOverused ("s1", (2, 4, 2)) [("s2", (2, 14, 2))], g) :: l2 ∧
      (∀ p ∈ l1, tupLt p.2 g) ∧ (∀ p ∈ l2, ¬ tupLt g p.2)) :=
  ⟨by
    have hs : ("s1" : String) ≠ "s2" := by decide
    norm_num [buildScripts, groupStep, alookup, dictSet, exC4, hs],
    most_overused_lex_first 25 exC4 ("s1", (2, 4, 2)) [("s2", (2, 14, 2))]
      (by
        have hs : ("s1" : String) ≠ "s2" := by decide
        norm_num [buildScripts, groupStep, alookup, dictSet, exC4, hs])⟩

end Groomer
